import Mathlib

/-!
Verification of the lot-sizing repository (`lot_sizing/input.py`,
`lot_sizing/model.py`) against its natural-language specification.

The Python code is shallowly embedded: the `Input` class becomes a

structure of lists (the Python `dict`s `demand` and `transition_cost`
have keys `0 .. num_types - 1` inserted in order, so they are modelled
as lists indexed by position, with a dict lookup that fails outside
that key range exactly where Python raises `KeyError`); methods that
can raise become `Except PyErr`-valued functions.
-/

instance {ε α : Type} [DecidableEq ε] [DecidableEq α] : DecidableEq (Except ε α) :=
  fun a b =>
    match a, b with
    | .error x, .error y =>
      if h : x = y then isTrue (by rw [h]) else isFalse (by intro hc; injection hc; contradiction)
    | .error _, .ok _ => isFalse (by intro hc; cases hc)
    | .ok _, .error _ => isFalse (by intro hc; cases hc)
    | .ok x, .ok y =>
      if h : x = y then isTrue (by rw [h]) else isFalse (by intro hc; injection hc; contradiction)

/-- Python exception kinds that the embedded code can raise.
`inputError` is the repository's own `InputError`. -/
inductive PyErr where
  | inputError
  | keyError
  | indexError
  | assertionError
  | valueError
  deriving DecidableEq, Repr

/-- Lookup in a Python dict whose keys are `0 .. rows.length - 1`
(as built by the `__read_demand` / `__read_transition_cost` loops):
any other key raises `KeyError`. -/
def dictGet (rows : List (List Int)) (k : Int) : Except PyErr (List Int) :=
  if 0 ≤ k ∧ k.toNat < rows.length then .ok (rows.getD k.toNat [])
  else .error .keyError

/-- Effective position of a Python list index: a negative index counts
from the end. -/
def pyIdxAdjust (l : List Int) (i : Int) : Int :=
  if 0 ≤ i then i else (l.length : Int) + i

/-- Python list indexing `l[i]`: a negative index counts from the end,
an index out of range raises `IndexError`. -/
def pyIndex (l : List Int) (i : Int) : Except PyErr Int :=
  if 0 ≤ pyIdxAdjust l i ∧ (pyIdxAdjust l i).toNat < l.length then
    .ok (l.getD (pyIdxAdjust l i).toNat 0)
  else .error .indexError

/-- Python prefix slice `l[:stop]`: a non-negative stop takes that many
elements (clamped to the length), a negative stop counts from the end
(clamped to zero).  Never raises. -/
def pySliceStop (l : List Int) (stop : Int) : List Int :=
  if 0 ≤ stop then l.take stop.toNat else l.take ((l.length : Int) + stop).toNat

/-- The `Input` class of `lot_sizing/input.py` after a successful
`read_file`: horizon length, number of machine types, demand rows,
per-unit inventory cost and the transition-cost matrix. -/
structure Input where
  num_time_periods : Nat
  num_types : Nat
  demand : List (List Int)
  inventory_cost : Int
  transition_cost : List (List Int)
  deriving DecidableEq, Repr

/-- Well-formedness established by `read_file`: one demand row per type,
each of horizon length (the `assert` in `__read_demand`), and a square
transition-cost matrix (the `assert` in `__read_transition_cost`). -/
def Input.Wf (inp : Input) : Prop :=
  inp.demand.length = inp.num_types ∧
  (∀ row ∈ inp.demand, row.length = inp.num_time_periods) ∧
  inp.transition_cost.length = inp.num_types ∧
  (∀ row ∈ inp.transition_cost, row.length = inp.num_types)

instance (inp : Input) : Decidable inp.Wf := by
  unfold Input.Wf; infer_instance

/-- `Input.get_demand`: bound checks (period first, then type, upper
bounds only) raising `InputError`, then `self.demand[machine_type][time_period]`. -/
def Input.get_demand (inp : Input) (machine_type time_period : Int) : Except PyErr Int :=
  if (inp.num_time_periods : Int) ≤ time_period then .error .inputError
  else if (inp.num_types : Int) ≤ machine_type then .error .inputError
  else do
    let row ← dictGet inp.demand machine_type
    pyIndex row time_period

/-- `Input.get_overall_demand`: same bound checks, then
`sum(self.demand[machine_type][:time_period + 1])`. -/
def Input.get_overall_demand (inp : Input) (machine_type time_period : Int) :
    Except PyErr Int :=
  if (inp.num_time_periods : Int) ≤ time_period then .error .inputError
  else if (inp.num_types : Int) ≤ machine_type then .error .inputError
  else do
    let row ← dictGet inp.demand machine_type
    .ok (pySliceStop row (time_period + 1)).sum

/-- Running count of entries equal to `t`, starting from `acc`:
position `p` of the result holds the number of matches at positions
`≤ p` plus `acc`. -/
def count_go (t : Int) (acc : Int) : List Int → List Int
  | [] => []
  | x :: xs =>
    (if x = t then acc + 1 else acc) :: count_go t (if x = t then acc + 1 else acc) xs

/-- `Input.__compute_num_produced_item_schedule`: the Python loop starts
from a zero array of horizon length and, at each index whose entry equals
`machine_type`, overwrites the whole suffix with the incremented running
count; the array it returns therefore holds, at position `p`, the number
of positions `≤ p` where `solution` equals `machine_type`, which is what
the running count computes. -/
def Input.compute_num_produced_item_schedule (_inp : Input) (machine_type : Int)
    (solution : List Int) : List Int :=
  count_go machine_type 0 solution

/-- The `(machine_type, time_slot)` pairs visited by the feasibility
loop, in `itertools.product` (row-major) order. -/
def feas_pairs (num_types num_time_periods : Nat) : List (Nat × Nat) :=
  (List.range num_types).flatMap fun t => (List.range num_time_periods).map fun p => (t, p)

/-- The checking loop of `Input.is_feasible`: returns `false` at the
first pair whose cumulative production falls short of the cumulative
demand, propagating any exception of `get_overall_demand`. -/
def feas_loop (inp : Input) (solution : List Int) : List (Nat × Nat) → Except PyErr Bool
  | [] => .ok true
  | (t, p) :: rest => do
    let od ← inp.get_overall_demand (t : Int) (p : Int)
    if (inp.compute_num_produced_item_schedule (t : Int) solution).getD p 0 < od then
      .ok false
    else
      feas_loop inp solution rest

/-- `Input.is_feasible`: raises `InputError` on a length mismatch,
otherwise checks every (type, period) pair. -/
def Input.is_feasible (inp : Input) (solution : List Int) : Except PyErr Bool :=
  if solution.length ≠ inp.num_time_periods then .error .inputError
  else feas_loop inp solution (feas_pairs inp.num_types inp.num_time_periods)

/-- Inner loop of `Input.compute_transition_cost`: `last` is the last
non-idle state seen (`-1` initially), `acc` the cost so far.  An idle
entry is skipped; a change of state after the first one looks up
`self.transition_cost[last][state]` (dict then list indexing, so it can
raise). -/
def tc_go (inp : Input) : Int → Int → List Int → Except PyErr Int
  | _, acc, [] => .ok acc
  | last, acc, state :: rest =>
    if state = -1 then tc_go inp last acc rest
    else if state ≠ last then
      if last ≠ -1 then do
        let row ← dictGet inp.transition_cost last
        let c ← pyIndex row state
        tc_go inp state (acc + c) rest
      else tc_go inp state acc rest
    else tc_go inp last acc rest

/-- `Input.compute_transition_cost`. -/
def Input.compute_transition_cost (inp : Input) (schedule : List Int) : Except PyErr Int :=
  tc_go inp (-1) 0 schedule

/-- Ascending list of indices of `l` whose entry satisfies `p`
(the Python `[index for index, item in enumerate(l) if ...]`). -/
def idx_where (l : List Int) (p : Int → Bool) : List Int :=
  (l.enum.filter fun q => p q.2).map fun q => (q.1 : Int)

/-- Per-type loop of `Input.compute_inventory_cost`: due periods are the
indices with demand `== 1`, producing periods the indices scheduling the
type; the due list is padded with `num_time_periods - 1` up to the
production count (Python list repetition with a non-positive count adds
nothing); the `assert len(demand) == len(production)` raises
`AssertionError` when production falls short. -/
def inv_loop (inp : Input) (schedule : List Int) : List Nat → Int → Except PyErr Int
  | [], acc => .ok acc
  | t :: rest, acc => do
    let drow ← dictGet inp.demand (t : Int)
    let due := idx_where drow (fun item => item = 1)
    let production := idx_where schedule (fun item => item = (t : Int))
    let padded := due ++ List.replicate (production.length - due.length)
      ((inp.num_time_periods : Int) - 1)
    if padded.length = production.length then
      inv_loop inp schedule rest
        (acc + ((padded.zip production).map fun q => q.1 - q.2).sum * inp.inventory_cost)
    else .error .assertionError

/-- `Input.compute_inventory_cost`. -/
def Input.compute_inventory_cost (inp : Input) (schedule : List Int) : Except PyErr Int :=
  inv_loop inp schedule (List.range inp.num_types) 0

/-- `Input.compute_costs`: transition cost plus inventory cost. -/
def Input.compute_costs (inp : Input) (schedule : List Int) : Except PyErr Int := do
  let t ← inp.compute_transition_cost schedule
  let i ← inp.compute_inventory_cost schedule
  .ok (t + i)

/-- The reference instance of the test fixture (`test_input.py`). -/
def refInput : Input :=
  { num_time_periods := 6
    num_types := 3
    demand := [[1, 0, 0, 0, 1, 0], [0, 1, 0, 0, 1, 0], [0, 0, 0, 0, 0, 1]]
    inventory_cost := 10
    transition_cost := [[0, 1, 1], [3, 0, 2], [4, 5, 0]] }

/-! ## Specification-side definitions -/

/-- Cumulative production: the number of periods `≤ p` in which the
schedule produces `t`. -/
def cumProd (solution : List Int) (t : Int) (p : Nat) : Int :=
  ((solution.take (p + 1)).countP fun x => x = t : Nat)

/-- Cumulative demand of type `t` through period `p`. -/
def cumDemand (inp : Input) (t p : Nat) : Int :=
  ((inp.demand.getD t []).take (p + 1)).sum

/-- The spec's feasibility predicate: for every type and period,
cumulative production is at least cumulative demand. -/
def spec_feasible (inp : Input) (solution : List Int) : Prop :=
  ∀ t < inp.num_types, ∀ p < inp.num_time_periods,
    cumDemand inp t p ≤ cumProd solution (t : Int) p

instance (inp : Input) (solution : List Int) : Decidable (spec_feasible inp solution) := by
  unfold spec_feasible; infer_instance

/-! ## Transition cost: spec-side characterization -/

/-- Spec-side: scanning a run of non-idle states, the `(last, current)`
pairs at which the active type changes; `-1` as `last` means no state
seen yet, so the first entry contributes no pair. -/
def change_pairs : Int → List Int → List (Int × Int)
  | _, [] => []
  | last, x :: xs =>
    if x = last then change_pairs last xs
    else if last = -1 then change_pairs x xs
    else (last, x) :: change_pairs x xs

/-- Spec-side transition cost as the claim words it: idle entries are
removed (they neither count as a change nor reset the last type), and
`transitionCost[last][current]` is charged exactly once at each change
of active type, the first non-idle entry being free. -/
def spec_transition_cost (inp : Input) (schedule : List Int) : Int :=
  ((change_pairs (-1) (schedule.filter fun x => x ≠ -1)).map
    fun q => (inp.transition_cost.getD q.1.toNat []).getD q.2.toNat 0).sum

/-! ## Inventory cost: spec-side characterization -/

/-- Spec-side: the ascending list of due periods of type `t`
(periods whose demand entry equals 1). -/
def spec_due_periods (inp : Input) (t : Nat) : List Int :=
  idx_where (inp.demand.getD t []) fun item => item = 1

/-- Spec-side: the ascending list of periods in which the schedule
produces type `t`. -/
def spec_production_periods (schedule : List Int) (t : Nat) : List Int :=
  idx_where schedule fun item => item = (t : Int)

/-- Spec-side: one type's inventory contribution: due periods padded by
repeating `numTimePeriods - 1` up to the production count, paired
positionally with the production periods, summed differences
(no clamping of negative differences). -/
def type_inv_contrib (inp : Input) (schedule : List Int) (t : Nat) : Int :=
  (((spec_due_periods inp t ++ List.replicate
      ((spec_production_periods schedule t).length - (spec_due_periods inp t).length)
      ((inp.num_time_periods : Int) - 1)).zip (spec_production_periods schedule t)).map
    fun q => q.1 - q.2).sum

/-- Spec-side inventory cost per the claim: `inventoryCost` times the
sum over types of the positionally paired differences. -/
def spec_inventory_cost (inp : Input) (schedule : List Int) : Int :=
  inp.inventory_cost * ((List.range inp.num_types).map fun t =>
    type_inv_contrib inp schedule t).sum

/-! ## The MIP formulation (`lot_sizing/model.py`) -/

/-- Decision variables of the MIP, named as in `model.py`.  Stock
variables are indexed from period `-1` (pre-horizon). -/
inductive MipVar where
  | production (machine_type time_period : Nat)
  | state (machine_type time_period : Nat)
  | stock (machine_type : Nat) (time_period : Int)
  | transition (type_i type_j time_period : Nat)
  deriving DecidableEq, Repr

/-- `MipModel._add_transition_variables`: keys `(type_i, type_j, p)` for
`p` in Python's `range(1, num_time_periods)`. -/
def transition_var_keys (num_types num_time_periods : Nat) : List (Nat × Nat × Nat) :=
  (List.range num_types).flatMap fun i =>
    (List.range num_types).flatMap fun j =>
      (List.range' 1 (num_time_periods - 1)).map fun p => (i, j, p)

/-- `MipModel._add_stock_variables`: keys `(machine_type, p)` for `p` in
Python's `range(-1, num_time_periods)`. -/
def stock_var_keys (num_types num_time_periods : Nat) : List (Nat × Int) :=
  (List.range num_types).flatMap fun t =>
    (List.range (num_time_periods + 1)).map fun k : Nat => (t, (k : Int) - 1)

/-- `MipModel._add_objective`: the objective's terms as
(coefficient, variable) pairs, in construction order: inventory-cost
terms over all (type, period in `range(num_time_periods)`), then
transition-cost terms over all (i, j, period in
`range(1, num_time_periods)`) filtered by `type_i != type_j`. -/
def mip_objective_terms (inp : Input) : List (Int × MipVar) :=
  ((List.range inp.num_types).flatMap fun t =>
    (List.range inp.num_time_periods).map fun p : Nat =>
      (inp.inventory_cost, MipVar.stock t (p : Int))) ++
  ((List.range inp.num_types).flatMap fun i =>
    (List.range inp.num_types).flatMap fun j =>
      (List.range' 1 (inp.num_time_periods - 1)).flatMap fun p =>
        if i ≠ j then
          [((inp.transition_cost.getD i []).getD j 0, MipVar.transition i j p)]
        else [])

/-- The objective is passed to `solver.Minimize`. -/
def mip_objective_is_minimized : Bool := true

/-- Value of a linear expression, given a valuation of the variables. -/
def obj_eval (σ : MipVar → Int) (terms : List (Int × MipVar)) : Int :=
  (terms.map fun q => q.1 * σ q.2).sum

/-! ## Parsing (`read_file`) and serialization (`__str__`) -/

/-- Whitespace characters recognised by Python's `str.strip()` /
`str.split()` (ASCII range). -/
def is_space_char (c : Char) : Bool :=
  (c == ' ') || (c == '\t') || (c == '\n') || (c == '\r') ||
  (c == Char.ofNat 11) || (c == Char.ofNat 12)

/-- Split a character list at every character satisfying `p`,
keeping empty groups. -/
def split_when (p : Char → Bool) : List Char → List (List Char)
  | [] => [[]]
  | c :: cs =>
    let r := split_when p cs
    if p c then [] :: r else (c :: r.headD []) :: r.tail

/-- Python `str.strip()`. -/
def trim_chars (cs : List Char) : List Char :=
  ((cs.dropWhile is_space_char).reverse.dropWhile is_space_char).reverse

/-- The line generator of `read_file`: split the file contents at
newlines, strip each line, skip blank lines. -/
def py_lines (s : List Char) : List (List Char) :=
  ((split_when (fun c => c == '\n') s).map trim_chars).filter fun l => l ≠ []

/-- Python `str.split()` with no separator: split at whitespace runs,
dropping empty tokens. -/
def py_split_ws (cs : List Char) : List (List Char) :=
  (split_when is_space_char cs).filter fun l => l ≠ []

def digits_to_nat (cs : List Char) : Nat :=
  cs.foldl (fun a c => a * 10 + (c.toNat - 48)) 0

/-- Python `int(s)`: optional surrounding whitespace, an optional sign,
then one or more decimal digits; anything else raises `ValueError`
(modelled as `none`). -/
def py_int_of_chars (cs0 : List Char) : Option Int :=
  let cs := trim_chars cs0
  if cs = [] then none
  else
    let c := cs.headD ' '
    let rest := cs.tail
    if c = '-' then
      if rest ≠ [] ∧ rest.all Char.isDigit then some (-(digits_to_nat rest : Int)) else none
    else if c = '+' then
      if rest ≠ [] ∧ rest.all Char.isDigit then some ((digits_to_nat rest : Int)) else none
    else if cs.all Char.isDigit then some ((digits_to_nat cs : Int)) else none

/-- One demand / transition-cost line: `[int(j) for j in line.split()]`. -/
def parse_row (line : List Char) : Option (List Int) :=
  (py_split_ws line).mapM py_int_of_chars

/-- Read `k` rows, each required (by the `assert`) to have `elen`
entries; running out of lines or a failed `int()` aborts. -/
def read_rows : Nat → Nat → List (List Char) → Option (List (List Int) × List (List Char))
  | 0, _, ls => some ([], ls)
  | _ + 1, _, [] => none
  | k + 1, elen, l :: ls =>
    match parse_row l with
    | none => none
    | some row =>
      if row.length = elen then
        match read_rows k elen ls with
        | none => none
        | some (rows, rest) => some (row :: rows, rest)
      else none

/-- `Input.read_file` on file contents: number of periods, number of
types, the demand rows, the inventory cost, the transition-cost rows,
in that order over the non-blank stripped lines.  (Negative header
values, which Python would store as-is, are outside the well-formed
format and clamp to 0 here.) -/
def read_input (s : List Char) : Option Input :=
  match py_lines s with
  | l0 :: l1 :: rest =>
    match py_int_of_chars l0 with
    | none => none
    | some nI =>
      match py_int_of_chars l1 with
      | none => none
      | some tI =>
        match read_rows tI.toNat nI.toNat rest with
        | none => none
        | some (dem, rest2) =>
          match rest2 with
          | [] => none
          | linv :: rest3 =>
            match py_int_of_chars linv with
            | none => none
            | some inv =>
              match read_rows tI.toNat tI.toNat rest3 with
              | none => none
              | some (tc, _) =>
                some { num_time_periods := nI.toNat, num_types := tI.toNat,
                       demand := dem, inventory_cost := inv, transition_cost := tc }
  | _ => none

def int_chars (i : Int) : List Char := (toString i).toList

/-- Python `str(list_of_ints)`: bracketed, comma-space separated. -/
def py_str_of_row (l : List Int) : List Char :=
  ('[' :: List.intercalate [',', ' '] (l.map int_chars)) ++ [']']

/-- `Input.__str__`: periods, types, the demand rows via `str(list)`,
the inventory cost, the transition rows via `str(list)`, joined by
newlines. -/
def input_to_chars (inp : Input) : List Char :=
  int_chars (inp.num_time_periods : Int) ++ ['\n'] ++
  int_chars (inp.num_types : Int) ++ ['\n'] ++
  List.intercalate ['\n'] (inp.demand.map py_str_of_row) ++ ['\n'] ++
  int_chars inp.inventory_cost ++ ['\n'] ++
  List.intercalate ['\n'] (inp.transition_cost.map py_str_of_row)

/-- The reference input file of the test fixture. -/
def ref_file_chars : List Char :=
  ("6\n3\n1 0 0 0 1 0\n0 1 0 0 1 0\n0 0 0 0 0 1\n10\n0 1 1\n3 0 2\n4 5 0").toList

/-! ## Lemmas and theorems -/

example : refInput.Wf := by decide

example : refInput.is_feasible [0, 1, 2, 0, 1, -1] = .ok true := by decide

example : refInput.is_feasible [0, 2, 1, 0, 1, -1] = .ok false := by decide

example : refInput.compute_transition_cost [0, 1, 2, 0, 1, -1] = .ok 8 := by decide

example : refInput.compute_inventory_cost [0, 1, 2, 0, 1, -1] = .ok 40 := by decide

example : refInput.compute_costs [0, 1, -1, 1, 0, 2] = .ok 15 := by decide

/-! ## Helper lemmas on feasibility -/

theorem dictGet_ok (rows : List (List Int)) (t : Nat) (ht : t < rows.length) :
    dictGet rows (t : Int) = .ok (rows.getD t []) := by
  have hk : (0 : Int) ≤ (t : Int) ∧ ((t : Int)).toNat < rows.length := by
    refine ⟨Int.ofNat_nonneg t, ?_⟩
    simpa using ht
  unfold dictGet
  rw [if_pos hk]
  simp

theorem get_overall_demand_ok (inp : Input) (t p : Nat) (hwf : inp.Wf)
    (ht : t < inp.num_types) (hp : p < inp.num_time_periods) :
    inp.get_overall_demand (t : Int) (p : Int) = .ok (cumDemand inp t p) := by
  obtain ⟨hd, -, -, -⟩ := hwf
  have htlen : t < inp.demand.length := by rw [hd]; exact ht
  have h1 : ¬ ((inp.num_time_periods : Int) ≤ (p : Int)) := by exact_mod_cast Nat.not_le.mpr hp
  have h2 : ¬ ((inp.num_types : Int) ≤ (t : Int)) := by exact_mod_cast Nat.not_le.mpr ht
  unfold Input.get_overall_demand
  rw [if_neg h1, if_neg h2, dictGet_ok _ _ htlen]
  show Except.ok (pySliceStop (inp.demand.getD t []) ((p : Int) + 1)).sum =
    Except.ok (cumDemand inp t p)
  congr 1

theorem count_go_getD (t : Int) :
    ∀ (sol : List Int) (acc : Int) (p : Nat), p < sol.length →
      (count_go t acc sol).getD p 0 =
        acc + (((sol.take (p + 1)).countP fun x => x = t : Nat) : Int) := by
  intro sol
  induction sol with
  | nil => intro acc p hp; simp at hp
  | cons x xs ih =>
    intro acc p hp
    cases p with
    | zero =>
      simp [count_go, List.countP_cons]
      by_cases hx : x = t <;> simp [hx]
    | succ q =>
      have hq : q < xs.length := by simpa using hp
      show ((if x = t then acc + 1 else acc) ::
        count_go t (if x = t then acc + 1 else acc) xs).getD (q + 1) 0 = _
      rw [List.getD_cons_succ, ih _ q hq, List.take_succ_cons, List.countP_cons]
      by_cases hx : x = t <;> simp [hx] <;> push_cast <;> ring

theorem mem_feas_pairs (T n : Nat) (q : Nat × Nat) :
    q ∈ feas_pairs T n ↔ q.1 < T ∧ q.2 < n := by
  obtain ⟨t, p⟩ := q
  simp only [feas_pairs, List.mem_flatMap, List.mem_map, List.mem_range, Prod.mk.injEq]
  constructor
  · rintro ⟨a, ha, b, hb, hab⟩
    exact ⟨hab.1 ▸ ha, hab.2 ▸ hb⟩
  · rintro ⟨ht, hp⟩
    exact ⟨t, ht, p, hp, rfl, rfl⟩

theorem feas_loop_eq (inp : Input) (sol : List Int) (hwf : inp.Wf)
    (hlen : sol.length = inp.num_time_periods) :
    ∀ L : List (Nat × Nat), (∀ q ∈ L, q.1 < inp.num_types ∧ q.2 < inp.num_time_periods) →
      feas_loop inp sol L =
        .ok (L.all fun q => decide (cumDemand inp q.1 q.2 ≤ cumProd sol (q.1 : Int) q.2)) := by
  intro L
  induction L with
  | nil => intro _; rfl
  | cons q rest ih =>
    intro hmem
    obtain ⟨t, p⟩ := q
    obtain ⟨ht, hp⟩ := hmem (t, p) (List.mem_cons_self _ _)
    show (do
      let od ← inp.get_overall_demand (t : Int) (p : Int)
      if (inp.compute_num_produced_item_schedule (t : Int) sol).getD p 0 < od then
        Except.ok false
      else feas_loop inp sol rest) = _
    rw [get_overall_demand_ok inp t p hwf ht hp]
    show (if (inp.compute_num_produced_item_schedule (t : Int) sol).getD p 0 <
        cumDemand inp t p then Except.ok false else feas_loop inp sol rest) = _
    have hcount : (inp.compute_num_produced_item_schedule (t : Int) sol).getD p 0 =
        cumProd sol (t : Int) p := by
      have h := count_go_getD (t : Int) sol 0 p (by rw [hlen]; exact hp)
      simpa [Input.compute_num_produced_item_schedule, cumProd] using h
    rw [hcount]
    by_cases hc : cumProd sol (t : Int) p < cumDemand inp t p
    · rw [if_pos hc]
      have hdec : decide (cumDemand inp t p ≤ cumProd sol (t : Int) p) = false := by
        simp [not_le.mpr hc]
      simp [List.all_cons, hdec]
    · rw [if_neg hc]
      rw [ih fun q hq => hmem q (List.mem_cons_of_mem _ hq)]
      have hdec : decide (cumDemand inp t p ≤ cumProd sol (t : Int) p) = true := by
        simp [not_lt.mp hc]
      simp [List.all_cons, hdec]

/-- `is_feasible` on a schedule of the right length computes exactly the
spec's backlog-free predicate. -/
theorem is_feasible_eq (inp : Input) (sol : List Int) (hwf : inp.Wf)
    (hlen : sol.length = inp.num_time_periods) :
    inp.is_feasible sol = .ok (decide (spec_feasible inp sol)) := by
  unfold Input.is_feasible
  rw [if_neg (by simp [hlen])]
  rw [feas_loop_eq inp sol hwf hlen _
    (fun q hq => (mem_feas_pairs _ _ q).mp hq)]
  congr 1
  rw [Bool.eq_iff_iff]
  simp only [List.all_eq_true, decide_eq_true_eq, spec_feasible]
  constructor
  · intro h t ht p hp
    exact h (t, p) ((mem_feas_pairs _ _ (t, p)).mpr ⟨ht, hp⟩)
  · intro h q hq
    obtain ⟨ht, hp⟩ := (mem_feas_pairs _ _ q).mp hq
    exact h q.1 ht q.2 hp

/-- C1: for every well-formed `Input` and integer list `schedule`,
`is_feasible` raises the length-mismatch `InputError` when
`len(schedule) != numTimePeriods`; otherwise it returns true iff for
every type `t` and period `p`, the number of periods `≤ p` in which the
schedule produces `t` is at least the cumulative demand of `t` through
`p`. -/
theorem c1_is_feasible_characterization (inp : Input) (schedule : List Int)
    (hwf : inp.Wf) :
    (schedule.length ≠ inp.num_time_periods →
      inp.is_feasible schedule = .error .inputError) ∧
    (schedule.length = inp.num_time_periods →
      inp.is_feasible schedule = .ok (decide (spec_feasible inp schedule))) := by
  constructor
  · intro hne
    unfold Input.is_feasible
    rw [if_pos hne]
  · intro hlen
    exact is_feasible_eq inp schedule hwf hlen

/-- Witness for C1 at the reference instance: a short schedule raises,
and the fixture's feasible schedule evaluates to true. -/
theorem c1_witness :
    refInput.is_feasible [0, 1, 2, 0] = .error .inputError ∧
    refInput.is_feasible [0, 1, 2, 0, 1, -1] = .ok true := by
  constructor
  · exact (c1_is_feasible_characterization refInput [0, 1, 2, 0] (by decide)).1 (by decide)
  · have h := (c1_is_feasible_characterization refInput [0, 1, 2, 0, 1, -1] (by decide)).2
      (by decide)
    rw [h]
    decide

/-- C3: the reference instance's fixture values: `[0,1,2,0,1,-1]` is
feasible with transition cost 8, inventory cost 40 and total cost 48;
`[0,1,-1,1,0,2]` is feasible with total cost 15; `[0,2,1,0,1,-1]` is
infeasible. -/
theorem c3_reference_instance_values :
    refInput.is_feasible [0, 1, 2, 0, 1, -1] = .ok true ∧
    refInput.compute_transition_cost [0, 1, 2, 0, 1, -1] = .ok 8 ∧
    refInput.compute_inventory_cost [0, 1, 2, 0, 1, -1] = .ok 40 ∧
    refInput.compute_costs [0, 1, 2, 0, 1, -1] = .ok 48 ∧
    refInput.is_feasible [0, 1, -1, 1, 0, 2] = .ok true ∧
    refInput.compute_costs [0, 1, -1, 1, 0, 2] = .ok 15 ∧
    refInput.is_feasible [0, 2, 1, 0, 1, -1] = .ok false := by
  decide

theorem countP_take_set (v t : Int) (hv : v ≠ -1) :
    ∀ (sol : List Int) (p q : Nat), sol.get? p = some (-1) →
      (((sol.set p t).take (q + 1)).countP fun x => x = v) =
        ((sol.take (q + 1)).countP fun x => x = v)
          + (if p ≤ q ∧ t = v then 1 else 0) := by
  have hnv : ¬((-1 : Int) = v) := fun h => hv h.symm
  intro sol
  induction sol with
  | nil => intro p q hp; simp at hp
  | cons x xs ih =>
    intro p q hp
    cases p with
    | zero =>
      have hx : x = -1 := by simpa using hp
      subst hx
      simp only [List.set_cons_zero, List.take_succ_cons, List.countP_cons]
      by_cases htv : t = v <;> simp [htv, hnv]
    | succ p' =>
      have hp' : xs.get? p' = some (-1) := by simpa using hp
      cases q with
      | zero =>
        simp only [List.set_cons_succ, List.take_succ_cons, List.take_zero]
        have : ¬(p' + 1 ≤ 0 ∧ t = v) := by omega
        simp [this]
      | succ q' =>
        simp only [List.set_cons_succ, List.take_succ_cons, List.countP_cons,
          ih p' q' hp']
        have hcond : (p' + 1 ≤ q' + 1 ∧ t = v) ↔ (p' ≤ q' ∧ t = v) := by
          constructor <;> exact fun h => ⟨by omega, h.2⟩
        by_cases hc : p' ≤ q' ∧ t = v
        · rw [if_pos hc, if_pos (hcond.mpr hc)]
          omega
        · rw [if_neg hc, if_neg (fun h => hc (hcond.mp h))]
          omega

/-- C8: feasibility is monotonic in production: converting an idle
period of a feasible schedule into production of any valid type keeps
the schedule feasible. -/
theorem c8_is_feasible_monotonic (inp : Input) (S : List Int) (p t : Nat)
    (hwf : inp.Wf) (hfeas : inp.is_feasible S = .ok true)
    (hidle : S.get? p = some (-1)) (ht : t < inp.num_types) :
    inp.is_feasible (S.set p (t : Int)) = .ok true := by
  have hlen : S.length = inp.num_time_periods := by
    by_contra hne
    unfold Input.is_feasible at hfeas
    rw [if_pos hne] at hfeas
    cases hfeas
  have hlen' : (S.set p (t : Int)).length = inp.num_time_periods := by
    simpa using hlen
  have hspec : spec_feasible inp S := by
    have h := is_feasible_eq inp S hwf hlen
    have h2 : Except.ok (ε := PyErr) (decide (spec_feasible inp S)) = .ok true := by
      rw [← h, hfeas]
    have h3 : decide (spec_feasible inp S) = true := by injection h2
    exact of_decide_eq_true h3
  rw [is_feasible_eq inp _ hwf hlen']
  have hspec' : spec_feasible inp (S.set p (t : Int)) := by
    intro t' ht' p' hp'
    have hv : ((t' : Nat) : Int) ≠ -1 := by omega
    have hkey := countP_take_set (t' : Int) (t : Int) hv S p p' hidle
    refine le_trans (hspec t' ht' p' hp') ?_
    unfold cumProd
    rw [hkey]
    push_cast
    omega
  simp [hspec']

/-- Witness for C8 at the reference instance: turning the idle last
period of the fixture's feasible schedule into production of type 0
keeps it feasible. -/
theorem c8_witness :
    refInput.is_feasible (([0, 1, 2, 0, 1, -1] : List Int).set 5 ((0 : Nat) : Int)) =
      .ok true :=
  c8_is_feasible_monotonic refInput [0, 1, 2, 0, 1, -1] 5 0
    (by decide) (by decide) (by decide) (by decide)

theorem cumProd_sanitize (S : List Int) (T t : Nat) (ht : t < T) (p : Nat) :
    cumProd (S.map fun x => if 0 ≤ x ∧ x < (T : Int) then x else -1) (t : Int) p =
      cumProd S (t : Int) p := by
  have htT : (t : Int) < (T : Int) := by exact_mod_cast ht
  unfold cumProd
  congr 1
  rw [← List.map_take, List.countP_map]
  apply List.countP_congr
  intro a _
  simp only [Function.comp_apply]
  by_cases ha : 0 ≤ a ∧ a < (T : Int)
  · rw [if_pos ha]
  · rw [if_neg ha]
    have h1 : ¬((-1 : Int) = (t : Int)) := by omega
    have h2 : ¬(a = (t : Int)) := by omega
    simp [h1, h2]

/-- C10: on a schedule of the correct length, `is_feasible` is total
(returns a boolean, never an exception), and any entry outside
`[0, numTypes)` behaves exactly like the idle sentinel `-1`: replacing
every such entry by `-1` does not change the result. -/
theorem c10_out_of_range_entries_idle (inp : Input) (S : List Int) (hwf : inp.Wf)
    (hlen : S.length = inp.num_time_periods) :
    (∃ b : Bool, inp.is_feasible S = .ok b) ∧
    inp.is_feasible (S.map fun x => if 0 ≤ x ∧ x < (inp.num_types : Int) then x else -1) =
      inp.is_feasible S := by
  refine ⟨⟨_, is_feasible_eq inp S hwf hlen⟩, ?_⟩
  rw [is_feasible_eq inp S hwf hlen,
    is_feasible_eq inp _ hwf (by simpa using hlen)]
  congr 1
  apply decide_eq_decide.mpr
  unfold spec_feasible
  constructor
  · intro h t ht p hp
    have := h t ht p hp
    rwa [cumProd_sanitize S inp.num_types t ht p] at this
  · intro h t ht p hp
    rw [cumProd_sanitize S inp.num_types t ht p]
    exact h t ht p hp

/-- Witness for C10 at the reference instance: the entry `7` is out of
range and acts like an idle period. -/
theorem c10_witness :
    (∃ b : Bool, refInput.is_feasible [0, 1, 2, 0, 1, 7] = .ok b) ∧
    refInput.is_feasible (([0, 1, 2, 0, 1, 7] : List Int).map
        fun x => if 0 ≤ x ∧ x < (refInput.num_types : Int) then x else -1) =
      refInput.is_feasible [0, 1, 2, 0, 1, 7] :=
  c10_out_of_range_entries_idle refInput [0, 1, 2, 0, 1, 7] (by decide) (by decide)

theorem dictGet_pos (rows : List (List Int)) (k : Int) (h0 : 0 ≤ k)
    (hlt : k.toNat < rows.length) :
    dictGet rows k = .ok (rows.getD k.toNat []) := by
  unfold dictGet
  rw [if_pos ⟨h0, hlt⟩]

theorem pyIndex_pos (l : List Int) (i : Int) (h0 : 0 ≤ i)
    (hlt : i.toNat < l.length) :
    pyIndex l i = .ok (l.getD i.toNat 0) := by
  have hadj : pyIdxAdjust l i = i := if_pos h0
  unfold pyIndex
  rw [if_pos (show 0 ≤ pyIdxAdjust l i ∧ (pyIdxAdjust l i).toNat < l.length by
    rw [hadj]; exact ⟨h0, hlt⟩), hadj]

theorem change_pairs_cons (last x : Int) (xs : List Int) :
    change_pairs last (x :: xs) =
      (if x = last then change_pairs last xs
       else if last = -1 then change_pairs x xs
       else (last, x) :: change_pairs x xs) := rfl

theorem tc_go_eq (inp : Input) (hwf : inp.Wf) :
    ∀ (sched : List Int) (last acc : Int),
      (∀ x ∈ sched, x = -1 ∨ (0 ≤ x ∧ x < (inp.num_types : Int))) →
      (last = -1 ∨ (0 ≤ last ∧ last < (inp.num_types : Int))) →
      tc_go inp last acc sched =
        .ok (acc + ((change_pairs last (sched.filter fun x => x ≠ -1)).map
          fun q => (inp.transition_cost.getD q.1.toNat []).getD q.2.toNat 0).sum) := by
  intro sched
  induction sched with
  | nil =>
    intro last acc _ _
    simp [tc_go, change_pairs]
  | cons x xs ih =>
    intro last acc hval hlast
    have hvx := hval x (List.mem_cons_self _ _)
    have hvxs : ∀ y ∈ xs, y = -1 ∨ (0 ≤ y ∧ y < (inp.num_types : Int)) :=
      fun y hy => hval y (List.mem_cons_of_mem _ hy)
    have hstep : tc_go inp last acc (x :: xs) =
      (if x = -1 then tc_go inp last acc xs
       else if x ≠ last then
         if last ≠ -1 then do
           let row ← dictGet inp.transition_cost last
           let c ← pyIndex row x
           tc_go inp x (acc + c) xs
         else tc_go inp x acc xs
       else tc_go inp last acc xs) := rfl
    rw [hstep]
    by_cases hx1 : x = -1
    · rw [if_pos hx1, ih last acc hvxs hlast]
      have hfilt : (x :: xs).filter (fun y => y ≠ -1) = xs.filter fun y => y ≠ -1 := by
        simp [List.filter_cons, hx1]
      rw [hfilt]
    · rw [if_neg hx1]
      have hvx2 : 0 ≤ x ∧ x < (inp.num_types : Int) := hvx.resolve_left hx1
      have hfilt : (x :: xs).filter (fun y => y ≠ -1) = x :: xs.filter fun y => y ≠ -1 := by
        simp [List.filter_cons, hx1]
      rw [hfilt]
      by_cases hx2 : x = last
      · rw [if_neg (by simpa using hx2)]
        rw [ih last acc hvxs hlast]
        rw [change_pairs_cons, if_pos hx2]
      · rw [if_pos (by simpa using hx2)]
        have hpairs : change_pairs last (x :: xs.filter fun y => y ≠ -1) =
            (if last = -1 then change_pairs x (xs.filter fun y => y ≠ -1)
             else (last, x) :: change_pairs x (xs.filter fun y => y ≠ -1)) := by
          rw [change_pairs_cons, if_neg hx2]
        by_cases hl1 : last = -1
        · rw [if_neg (by simpa using hl1), ih x acc hvxs (Or.inr hvx2)]
          rw [hpairs, if_pos hl1]
        · rw [if_pos (by simpa using hl1)]
          obtain ⟨hl0, hlT⟩ := hlast.resolve_left hl1
          have hlen_tc : last.toNat < inp.transition_cost.length := by
            rw [hwf.2.2.1]
            omega
          have hrow_mem : inp.transition_cost.getD last.toNat [] ∈ inp.transition_cost := by
            rw [List.getD_eq_getElem _ _ hlen_tc]
            exact List.getElem_mem hlen_tc
          have hrow_len : (inp.transition_cost.getD last.toNat []).length = inp.num_types :=
            hwf.2.2.2 _ hrow_mem
          have hxlen : x.toNat < (inp.transition_cost.getD last.toNat []).length := by
            rw [hrow_len]
            omega
          rw [dictGet_pos _ _ hl0 hlen_tc]
          show (do
            let c ← pyIndex (inp.transition_cost.getD last.toNat []) x
            tc_go inp x (acc + c) xs) = _
          rw [pyIndex_pos _ _ hvx2.1 hxlen]
          show tc_go inp x (acc + (inp.transition_cost.getD last.toNat []).getD x.toNat 0) xs = _
          rw [ih x _ hvxs (Or.inr hvx2), hpairs, if_neg hl1]
          congr 1
          simp [List.map_cons, List.sum_cons]
          ring

/-- C9: `compute_transition_cost` charges `transitionCost[last][current]`
exactly at each change of active non-idle type, with idle entries
transparent and the first non-idle entry free (the `spec_transition_cost`
characterization); in particular `[0,0,1]` and `[0,-1,0,1]` both cost
exactly `transitionCost[0][1]`. -/
theorem c9_transition_cost_characterization (inp : Input) (schedule : List Int)
    (hwf : inp.Wf) :
    ((∀ x ∈ schedule, x = -1 ∨ (0 ≤ x ∧ x < (inp.num_types : Int))) →
      inp.compute_transition_cost schedule = .ok (spec_transition_cost inp schedule)) ∧
    (2 ≤ inp.num_types →
      inp.compute_transition_cost [0, 0, 1] =
        .ok ((inp.transition_cost.getD 0 []).getD 1 0) ∧
      inp.compute_transition_cost [0, -1, 0, 1] =
        .ok ((inp.transition_cost.getD 0 []).getD 1 0)) := by
  have general : ∀ s : List Int,
      (∀ x ∈ s, x = -1 ∨ (0 ≤ x ∧ x < (inp.num_types : Int))) →
      inp.compute_transition_cost s = .ok (spec_transition_cost inp s) := by
    intro s hval
    unfold Input.compute_transition_cost spec_transition_cost
    rw [tc_go_eq inp hwf s (-1) 0 hval (Or.inl rfl)]
    congr 1
    ring
  refine ⟨general schedule, fun hT => ?_⟩
  have hT2 : (2 : Int) ≤ (inp.num_types : Int) := by exact_mod_cast hT
  have hval1 : ∀ x ∈ ([0, 0, 1] : List Int), x = -1 ∨ (0 ≤ x ∧ x < (inp.num_types : Int)) := by
    intro x hx
    fin_cases hx <;> first
      | exact Or.inl rfl
      | exact Or.inr ⟨by norm_num, by omega⟩
  have hval2 : ∀ x ∈ ([0, -1, 0, 1] : List Int),
      x = -1 ∨ (0 ≤ x ∧ x < (inp.num_types : Int)) := by
    intro x hx
    fin_cases hx <;> first
      | exact Or.inl rfl
      | exact Or.inr ⟨by norm_num, by omega⟩
  constructor
  · rw [general [0, 0, 1] hval1]
    congr 1
    show spec_transition_cost inp [0, 0, 1] = _
    unfold spec_transition_cost
    norm_num [change_pairs, List.filter]
  · rw [general [0, -1, 0, 1] hval2]
    congr 1
    show spec_transition_cost inp [0, -1, 0, 1] = _
    unfold spec_transition_cost
    norm_num [change_pairs, List.filter]

/-- Witness for C9 at the reference instance: the fixture schedule
satisfies the characterization, and both example schedules cost
`transitionCost[0][1] = 1`. -/
theorem c9_witness :
    refInput.compute_transition_cost [0, 1, 2, 0, 1, -1] =
      .ok (spec_transition_cost refInput [0, 1, 2, 0, 1, -1]) ∧
    refInput.compute_transition_cost [0, 0, 1] =
      .ok ((refInput.transition_cost.getD 0 []).getD 1 0) ∧
    refInput.compute_transition_cost [0, -1, 0, 1] =
      .ok ((refInput.transition_cost.getD 0 []).getD 1 0) := by
  refine ⟨?_, ?_, ?_⟩
  · exact (c9_transition_cost_characterization refInput [0, 1, 2, 0, 1, -1] (by decide)).1
      (by decide)
  · exact ((c9_transition_cost_characterization refInput [0, 1, 2, 0, 1, -1]
      (by decide)).2 (by decide)).1
  · exact ((c9_transition_cost_characterization refInput [0, 1, 2, 0, 1, -1]
      (by decide)).2 (by decide)).2

theorem inv_loop_cons (inp : Input) (schedule : List Int) (t : Nat) (rest : List Nat)
    (acc : Int) (hlen : t < inp.demand.length) :
    inv_loop inp schedule (t :: rest) acc =
      (if (spec_due_periods inp t ++ List.replicate
          ((spec_production_periods schedule t).length - (spec_due_periods inp t).length)
          ((inp.num_time_periods : Int) - 1)).length =
          (spec_production_periods schedule t).length then
        inv_loop inp schedule rest
          (acc + (((spec_due_periods inp t ++ List.replicate
            ((spec_production_periods schedule t).length -
              (spec_due_periods inp t).length)
            ((inp.num_time_periods : Int) - 1)).zip
              (spec_production_periods schedule t)).map
            fun q => q.1 - q.2).sum * inp.inventory_cost)
      else .error .assertionError) := by
  show (do
    let drow ← dictGet inp.demand (t : Int)
    let due := idx_where drow fun item => item = 1
    let production := idx_where schedule fun item => item = (t : Int)
    let padded := due ++ List.replicate (production.length - due.length)
      ((inp.num_time_periods : Int) - 1)
    if padded.length = production.length then
      inv_loop inp schedule rest
        (acc + ((padded.zip production).map fun q : Int × Int => q.1 - q.2).sum *
          inp.inventory_cost)
    else .error .assertionError) =
    (if (spec_due_periods inp t ++ List.replicate
        ((spec_production_periods schedule t).length - (spec_due_periods inp t).length)
        ((inp.num_time_periods : Int) - 1)).length =
        (spec_production_periods schedule t).length then
      inv_loop inp schedule rest
        (acc + (((spec_due_periods inp t ++ List.replicate
          ((spec_production_periods schedule t).length -
            (spec_due_periods inp t).length)
          ((inp.num_time_periods : Int) - 1)).zip
            (spec_production_periods schedule t)).map
          fun q : Int × Int => q.1 - q.2).sum * inp.inventory_cost)
    else .error .assertionError)
  rw [dictGet_ok inp.demand t hlen]
  rfl

theorem inv_loop_eq (inp : Input) (schedule : List Int) (hwf : inp.Wf) :
    ∀ (L : List Nat) (acc : Int),
      (∀ t ∈ L, t < inp.num_types ∧
        (spec_due_periods inp t).length ≤ (spec_production_periods schedule t).length) →
      inv_loop inp schedule L acc =
        .ok (acc + ((L.map fun t =>
          type_inv_contrib inp schedule t * inp.inventory_cost).sum)) := by
  intro L
  induction L with
  | nil =>
    intro acc _
    simp [inv_loop]
  | cons t rest ih =>
    intro acc hmem
    obtain ⟨ht, hcov⟩ := hmem t (List.mem_cons_self _ _)
    have hpad : (spec_due_periods inp t ++ List.replicate
        ((spec_production_periods schedule t).length - (spec_due_periods inp t).length)
        ((inp.num_time_periods : Int) - 1)).length =
        (spec_production_periods schedule t).length := by
      simp only [List.length_append, List.length_replicate]
      omega
    rw [inv_loop_cons inp schedule t rest acc (by rw [hwf.1]; exact ht), if_pos hpad,
      ih _ fun u hu => hmem u (List.mem_cons_of_mem _ hu)]
    congr 1
    unfold type_inv_contrib
    simp only [List.map_cons, List.sum_cons]
    ring

/-- C2: when every type's production count covers its due count,
`compute_inventory_cost` returns `inventoryCost` times the sum over
types of the positionally paired differences `(due - produced)`, with
the due list padded by repeating `numTimePeriods - 1` and no clamping
of negative differences. -/
theorem c2_inventory_cost_formula (inp : Input) (schedule : List Int) (hwf : inp.Wf)
    (hcover : ∀ t < inp.num_types,
      (spec_due_periods inp t).length ≤ (spec_production_periods schedule t).length) :
    inp.compute_inventory_cost schedule = .ok (spec_inventory_cost inp schedule) := by
  unfold Input.compute_inventory_cost
  rw [inv_loop_eq inp schedule hwf (List.range inp.num_types) 0
    fun t htm => ⟨List.mem_range.mp htm, hcover t (List.mem_range.mp htm)⟩]
  congr 1
  unfold spec_inventory_cost
  rw [zero_add]
  induction List.range inp.num_types with
  | nil => simp
  | cons u us ihu =>
    simp only [List.map_cons, List.sum_cons, ihu]
    ring

/-- Witness for C2 at the reference instance and the fixture's feasible
schedule (whose inventory cost is 40). -/
theorem c2_witness :
    refInput.compute_inventory_cost [0, 1, 2, 0, 1, -1] =
      .ok (spec_inventory_cost refInput [0, 1, 2, 0, 1, -1]) :=
  c2_inventory_cost_formula refInput [0, 1, 2, 0, 1, -1] (by decide) (by decide)

/-- C5: a schedule of the correct length under-producing some type
(fewer producing periods than due periods) makes
`compute_inventory_cost` fail the `assert len(demand) == len(production)`
with an `AssertionError` instead of returning a value. -/
theorem c5_underproduction_asserts (inp : Input) (schedule : List Int) (hwf : inp.Wf)
    (hlen : schedule.length = inp.num_time_periods)
    (hunder : ∃ t < inp.num_types,
      (spec_production_periods schedule t).length < (spec_due_periods inp t).length) :
    inp.compute_inventory_cost schedule = .error .assertionError := by
  unfold Input.compute_inventory_cost
  have key : ∀ (L : List Nat) (acc : Int), (∀ t ∈ L, t < inp.num_types) →
      (∃ t ∈ L, (spec_production_periods schedule t).length <
        (spec_due_periods inp t).length) →
      inv_loop inp schedule L acc = .error .assertionError := by
    intro L
    induction L with
    | nil =>
      intro acc _ hex
      obtain ⟨t, htm, -⟩ := hex
      cases htm
    | cons u rest ih =>
      intro acc hmem hex
      have hu : u < inp.demand.length := by
        rw [hwf.1]
        exact hmem u (List.mem_cons_self _ _)
      rw [inv_loop_cons inp schedule u rest acc hu]
      by_cases hbad : (spec_production_periods schedule u).length <
          (spec_due_periods inp u).length
      · rw [if_neg]
        simp only [List.length_append, List.length_replicate]
        omega
      · have hpad : (spec_due_periods inp u ++ List.replicate
            ((spec_production_periods schedule u).length - (spec_due_periods inp u).length)
            ((inp.num_time_periods : Int) - 1)).length =
            (spec_production_periods schedule u).length := by
          simp only [List.length_append, List.length_replicate]
          omega
        rw [if_pos hpad]
        apply ih _ fun v hv => hmem v (List.mem_cons_of_mem _ hv)
        obtain ⟨t, htm, hlt⟩ := hex
        rcases List.mem_cons.mp htm with rfl | htm2
        · exact absurd hlt hbad
        · exact ⟨t, htm2, hlt⟩
  apply key _ _ (fun t htm => List.mem_range.mp htm)
  obtain ⟨t, ht, hlt⟩ := hunder
  exact ⟨t, List.mem_range.mpr ht, hlt⟩

/-- Witness for C5 at the reference instance: the all-idle schedule
produces nothing, so type 0 is under-produced and the assertion fires. -/
theorem c5_witness :
    refInput.compute_inventory_cost [-1, -1, -1, -1, -1, -1] = .error .assertionError :=
  c5_underproduction_asserts refInput [-1, -1, -1, -1, -1, -1] (by decide) (by decide)
    ⟨0, by decide, by decide⟩

theorem flatMap_singleton_eq_map {α β : Type} (l : List α) (f : α → β) :
    (l.flatMap fun x => [f x]) = l.map f := by
  induction l with
  | nil => rfl
  | cons a l ih =>
    rw [List.flatMap_cons, List.map_cons]
    simpa using ih

theorem flatMap_const_nil {α β : Type} (l : List α) :
    (l.flatMap fun _ : α => ([] : List β)) = [] := by
  induction l with
  | nil => rfl
  | cons a l ih =>
    rw [List.flatMap_cons]
    simpa using ih

theorem obj_eval_append (σ : MipVar → Int) (l1 l2 : List (Int × MipVar)) :
    obj_eval σ (l1 ++ l2) = obj_eval σ l1 + obj_eval σ l2 := by
  unfold obj_eval
  rw [List.map_append, List.sum_append]

theorem obj_eval_flatMap {α : Type} (σ : MipVar → Int) (l : List α)
    (g : α → List (Int × MipVar)) :
    obj_eval σ (l.flatMap g) = (l.map fun a => obj_eval σ (g a)).sum := by
  induction l with
  | nil => rfl
  | cons a l ih =>
    rw [List.flatMap_cons, obj_eval_append, ih, List.map_cons, List.sum_cons]

theorem list_sum_range (n : Nat) (f : Nat → Int) :
    ((List.range n).map f).sum = ∑ i in Finset.range n, f i := by
  induction n with
  | zero => simp
  | succ m ih =>
    rw [List.range_succ, List.map_append, List.sum_append, Finset.sum_range_succ, ih]
    simp

theorem list_sum_range'_shift (k : Nat) : ∀ (s : Nat) (f : Nat → Int),
    ((List.range' s k).map f).sum = ∑ i in Finset.range k, f (s + i) := by
  induction k with
  | zero => intro s f; simp
  | succ m ih =>
    intro s f
    rw [List.range'_succ, List.map_cons, List.sum_cons, ih (s + 1) f,
      Finset.sum_range_succ']
    have harg : ∀ i : Nat, s + 1 + i = s + (i + 1) := by omega
    rw [Finset.sum_congr rfl fun i _ => by rw [harg i]]
    simp [add_comm]

theorem sum_range'_one (n : Nat) (g : Nat → Int) :
    ((List.range' 1 (n - 1)).map g).sum =
      ∑ p in Finset.range n, if 1 ≤ p then g p else 0 := by
  cases n with
  | zero => simp
  | succ m =>
    rw [list_sum_range'_shift (m + 1 - 1) 1 g, Finset.sum_range_succ']
    have h0 : (if 1 ≤ 0 then g 0 else 0) = 0 := by simp
    rw [h0, add_zero]
    apply Finset.sum_congr rfl
    intro i _
    have h1 : 1 ≤ i + 1 := by omega
    rw [if_pos h1]
    congr 1
    omega

theorem mem_transition_var_keys (T n : Nat) (i j p : Nat) :
    (i, j, p) ∈ transition_var_keys T n ↔
      i < T ∧ j < T ∧ 1 ≤ p ∧ p < n := by
  simp only [transition_var_keys, List.mem_flatMap, List.mem_map, List.mem_range,
    List.mem_range'_1, Prod.mk.injEq]
  constructor
  · rintro ⟨a, ha, b, hb, c, ⟨hc1, hc2⟩, rfl, rfl, rfl⟩
    exact ⟨ha, hb, hc1, by omega⟩
  · rintro ⟨hi, hj, hp1, hp2⟩
    exact ⟨i, hi, j, hj, p, ⟨hp1, by omega⟩, rfl, rfl, rfl⟩

/-- C4: the MIP has transition variables exactly for the triples
`(i, j, p)` with `p ≥ 1` (none for period 0), the objective is
minimized, and under any valuation it equals the sum over all
(type, period) of `inventoryCost * stock[t,p]` plus the sum over all
`i ≠ j` and `p ≥ 1` of `transitionCost[i][j] * transition[i,j,p]`,
diagonal transition variables excluded. -/
theorem c4_mip_transition_vars_and_objective (inp : Input) (σ : MipVar → Int) :
    (∀ i j p : Nat,
      (i, j, p) ∈ transition_var_keys inp.num_types inp.num_time_periods ↔
        (i < inp.num_types ∧ j < inp.num_types ∧ 1 ≤ p ∧ p < inp.num_time_periods)) ∧
    mip_objective_is_minimized = true ∧
    obj_eval σ (mip_objective_terms inp) =
      (∑ t in Finset.range inp.num_types, ∑ p in Finset.range inp.num_time_periods,
        inp.inventory_cost * σ (MipVar.stock t (p : Int))) +
      (∑ i in Finset.range inp.num_types, ∑ j in Finset.range inp.num_types,
        ∑ p in Finset.range inp.num_time_periods,
          if i ≠ j ∧ 1 ≤ p then
            (inp.transition_cost.getD i []).getD j 0 * σ (MipVar.transition i j p)
          else 0) := by
  refine ⟨fun i j p => mem_transition_var_keys _ _ i j p, rfl, ?_⟩
  unfold mip_objective_terms
  rw [obj_eval_append]
  congr 1
  · rw [obj_eval_flatMap, list_sum_range]
    apply Finset.sum_congr rfl
    intro t _
    unfold obj_eval
    rw [List.map_map, list_sum_range]
    rfl
  · rw [obj_eval_flatMap, list_sum_range]
    apply Finset.sum_congr rfl
    intro i _
    rw [obj_eval_flatMap, list_sum_range]
    apply Finset.sum_congr rfl
    intro j _
    by_cases hij : i ≠ j
    · have hmap : ((List.range' 1 (inp.num_time_periods - 1)).flatMap fun p =>
          if i ≠ j then
            [((inp.transition_cost.getD i []).getD j 0, MipVar.transition i j p)]
          else []) =
          (List.range' 1 (inp.num_time_periods - 1)).map fun p =>
            ((inp.transition_cost.getD i []).getD j 0, MipVar.transition i j p) := by
        simp only [if_pos hij]
        exact flatMap_singleton_eq_map _ _
      rw [hmap]
      unfold obj_eval
      rw [List.map_map, sum_range'_one]
      apply Finset.sum_congr rfl
      intro p _
      by_cases hp : 1 ≤ p
      · rw [if_pos hp, if_pos ⟨hij, hp⟩]
        rfl
      · rw [if_neg hp, if_neg fun h => hp h.2]
    · have hnil : ((List.range' 1 (inp.num_time_periods - 1)).flatMap fun p =>
          if i ≠ j then
            [((inp.transition_cost.getD i []).getD j 0, MipVar.transition i j p)]
          else []) = [] := by
        simp only [if_neg hij]
        exact flatMap_const_nil _
      rw [hnil]
      rw [show obj_eval σ [] = 0 from rfl]
      symm
      apply Finset.sum_eq_zero
      intro p _
      rw [if_neg fun h => hij h.1]

/-! ## Demand queries on out-of-range indices -/

theorem dictGet_neg (rows : List (List Int)) (k : Int) (hk : k < 0) :
    dictGet rows k = .error .keyError := by
  unfold dictGet
  rw [if_neg (by omega)]

theorem pyIndex_neg_wrap (l : List Int) (i : Int) (hneg : i < 0)
    (hge : -(l.length : Int) ≤ i) :
    pyIndex l i = .ok (l.getD ((l.length : Int) + i).toNat 0) := by
  have hadj : pyIdxAdjust l i = (l.length : Int) + i := if_neg (by omega)
  unfold pyIndex
  rw [hadj, if_pos ⟨by omega, by omega⟩]

theorem pyIndex_oob (l : List Int) (i : Int) (hlt : i < -(l.length : Int)) :
    pyIndex l i = .error .indexError := by
  have hadj : pyIdxAdjust l i = (l.length : Int) + i := if_neg (by omega)
  unfold pyIndex
  rw [hadj, if_neg (by omega)]

theorem demand_row_length (inp : Input) (hwf : inp.Wf) (t : Nat)
    (ht : t < inp.num_types) :
    (inp.demand.getD t []).length = inp.num_time_periods := by
  have hlen : t < inp.demand.length := by rw [hwf.1]; exact ht
  have hmem : inp.demand.getD t [] ∈ inp.demand := by
    rw [List.getD_eq_getElem _ _ hlen]
    exact List.getElem_mem hlen
  exact hwf.2.1 _ hmem

/-- Counterexample to C6: on the reference instance, a negative machine
type does not select from the end of the storage — `get_demand(-1, 0)`
raises a `KeyError` (types live in a dict, not a sequence), where the
claim predicts the value `demand[2][0]` returned without raising. -/
theorem c6_counterexample :
    refInput.get_demand (-1) 0 = .error .keyError ∧
    ¬ ∃ v : Int, refInput.get_demand (-1) 0 = .ok v := by
  constructor
  · decide
  · rintro ⟨v, hv⟩
    rw [show refInput.get_demand (-1) 0 = .error .keyError from by decide] at hv
    cases hv

/-- C6 (amended): `get_demand`/`get_overall_demand` raise the range
`InputError` when `period ≥ numTimePeriods`, or when
`period < numTimePeriods` and `type ≥ numTypes`; negative indices pass
those checks, but only a negative *period* follows sequence semantics:
`get_demand` wraps periods in `[-n, -1]` and raises `IndexError` below
`-n`, and `get_overall_demand` slices (empty sum for `period = -1`,
a from-the-end prefix below that); a negative *type* raises `KeyError`
because types are stored in a dict, not a sequence. -/
theorem c6_negative_index_semantics (inp : Input) (hwf : inp.Wf) :
    (∀ t p : Int, (inp.num_time_periods : Int) ≤ p →
      inp.get_demand t p = .error .inputError ∧
      inp.get_overall_demand t p = .error .inputError) ∧
    (∀ t p : Int, p < (inp.num_time_periods : Int) → (inp.num_types : Int) ≤ t →
      inp.get_demand t p = .error .inputError ∧
      inp.get_overall_demand t p = .error .inputError) ∧
    (∀ t p : Int, t < 0 → p < (inp.num_time_periods : Int) →
      inp.get_demand t p = .error .keyError ∧
      inp.get_overall_demand t p = .error .keyError) ∧
    (∀ (t : Nat) (p : Int), t < inp.num_types →
      -(inp.num_time_periods : Int) ≤ p → p < 0 →
      inp.get_demand (t : Int) p =
        .ok ((inp.demand.getD t []).getD ((inp.num_time_periods : Int) + p).toNat 0)) ∧
    (∀ (t : Nat) (p : Int), t < inp.num_types → p < -(inp.num_time_periods : Int) →
      inp.get_demand (t : Int) p = .error .indexError) ∧
    (∀ t : Nat, t < inp.num_types →
      inp.get_overall_demand (t : Int) (-1) = .ok 0) ∧
    (∀ (t : Nat) (p : Int), t < inp.num_types → p < -1 →
      inp.get_overall_demand (t : Int) p =
        .ok (((inp.demand.getD t []).take
          ((inp.num_time_periods : Int) + p + 1).toNat).sum)) := by
  have hTnn : (0 : Int) ≤ (inp.num_types : Int) := Int.ofNat_nonneg _
  refine ⟨?_, ?_, ?_, ?_, ?_, ?_, ?_⟩
  · intro t p hp
    constructor
    · unfold Input.get_demand
      rw [if_pos hp]
    · unfold Input.get_overall_demand
      rw [if_pos hp]
  · intro t p hp ht
    constructor
    · unfold Input.get_demand
      rw [if_neg (by omega), if_pos ht]
    · unfold Input.get_overall_demand
      rw [if_neg (by omega), if_pos ht]
  · intro t p ht hp
    constructor
    · unfold Input.get_demand
      rw [if_neg (by omega), if_neg (by omega), dictGet_neg _ _ ht]
      rfl
    · unfold Input.get_overall_demand
      rw [if_neg (by omega), if_neg (by omega), dictGet_neg _ _ ht]
      rfl
  · intro t p ht hge hneg
    have htI : ((t : Int)) < (inp.num_types : Int) := by exact_mod_cast ht
    have hrow := demand_row_length inp hwf t ht
    unfold Input.get_demand
    rw [if_neg (by omega), if_neg (by omega),
      dictGet_ok inp.demand t (by rw [hwf.1]; exact ht)]
    show pyIndex (inp.demand.getD t []) p = _
    rw [pyIndex_neg_wrap _ _ hneg (by rw [hrow]; exact hge), hrow]
  · intro t p ht hlt
    have htI : ((t : Int)) < (inp.num_types : Int) := by exact_mod_cast ht
    have hrow := demand_row_length inp hwf t ht
    have hpn : p < (inp.num_time_periods : Int) := by omega
    unfold Input.get_demand
    rw [if_neg (by omega), if_neg (by omega),
      dictGet_ok inp.demand t (by rw [hwf.1]; exact ht)]
    show pyIndex (inp.demand.getD t []) p = _
    rw [pyIndex_oob _ _ (by rw [hrow]; exact hlt)]
  · intro t ht
    have htI : ((t : Int)) < (inp.num_types : Int) := by exact_mod_cast ht
    unfold Input.get_overall_demand
    rw [if_neg (by omega), if_neg (by omega),
      dictGet_ok inp.demand t (by rw [hwf.1]; exact ht)]
    show Except.ok (pySliceStop (inp.demand.getD t []) ((-1 : Int) + 1)).sum = _
    norm_num [pySliceStop]
  · intro t p ht hp
    have htI : ((t : Int)) < (inp.num_types : Int) := by exact_mod_cast ht
    have hrow := demand_row_length inp hwf t ht
    unfold Input.get_overall_demand
    rw [if_neg (by omega), if_neg (by omega),
      dictGet_ok inp.demand t (by rw [hwf.1]; exact ht)]
    show Except.ok (pySliceStop (inp.demand.getD t []) (p + 1)).sum = _
    unfold pySliceStop
    rw [if_neg (by omega), hrow]
    have harg : ((inp.num_time_periods : Int) + (p + 1)).toNat =
        ((inp.num_time_periods : Int) + p + 1).toNat := by omega
    rw [harg]

/-- Witness for C6 (amended) at the reference instance: period `-6`
wraps to period 0 of type 0 (demand 1), period `-1` gives an empty
cumulative sum, and an excessive period raises the range error. -/
theorem c6_witness :
    refInput.get_demand ((0 : Nat) : Int) (-6) = .ok 1 ∧
    refInput.get_overall_demand ((0 : Nat) : Int) (-1) = .ok 0 ∧
    refInput.get_demand 0 6 = .error .inputError := by
  have h := c6_negative_index_semantics refInput (by decide)
  refine ⟨?_, ?_, ?_⟩
  · have h4 := h.2.2.2.1 0 (-6) (by decide) (by decide) (by decide)
    rw [h4]
    decide
  · exact h.2.2.2.2.2.1 0 (by decide)
  · exact (h.1 0 6 (by decide)).1

example : read_input ref_file_chars = some refInput := by decide

/-- Counterexample to C7: the reference file parses to the reference
instance, but re-parsing its `__str__` serialization does not yield
that instance back — it fails to parse at all. -/
theorem c7_counterexample :
    read_input ref_file_chars = some refInput ∧
    read_input (input_to_chars refInput) ≠ some refInput := by
  constructor
  · decide
  · intro h
    rw [show read_input (input_to_chars refInput) = none from by decide] at h
    cases h

/-- C7 (amended): `__str__` does not emit the canonical input format:
it renders each demand / transition row as a bracketed, comma-separated
Python list (`[1, 0, ...]`), whose tokens are not integers, so
re-parsing the serialization fails at the first demand row and the
round-trip returns a parse error instead of an identical instance —
shown on the reference file. -/
theorem c7_roundtrip_fails :
    read_input ref_file_chars = some refInput ∧
    read_input (input_to_chars refInput) = none ∧
    parse_row ((py_lines (input_to_chars refInput)).getD 2 []) = none := by
  refine ⟨by decide, by decide, by decide⟩
